import Mathlib

/-!
Verification of the batch image-processing / CSV-export pipeline.

Shallow embedding of the pipeline modules:
* path helpers and the file validator (processor.py),
* the record data model and the export validator (exporter.py),
* the CSV writer (exporter.py, via the standard csv module semantics),
* a standard delimited-text parser (spec side, used to state round trips),
* the controller handlers (main.py).

The filesystem is abstracted as a predicate telling whether a path refers
to an existing regular file.  Scalar field values are embedded in their
string form, which is the form the CSV layer compares and produces.
-/

namespace JCPZ

/-- Index of the last occurrence of a character in a list, if any.
Models str.rfind restricted to single-character needles. -/
def lastIndexOf (c : Char) : List Char → Option Nat
  | [] => none
  | x :: xs =>
    match lastIndexOf c xs with
    | some i => some (i + 1)
    | none => if x = c then some 0 else none

/-- Model of os.path.splitext (posix semantics): split off the extension at
the last dot of the final path component, except that leading dots of that
component never start an extension. -/
def splitext (p : String) : String × String :=
  let cs := p.data
  let fi : Nat :=
    match lastIndexOf '/' cs with
    | some i => i + 1
    | none => 0
  match lastIndexOf '.' cs with
  | none => (p, "")
  | some d =>
    if fi ≤ d ∧ ((List.range' fi (d - fi)).any (fun j => cs.getD j '.' ≠ '.')) then
      (String.mk (cs.take d), String.mk (cs.drop d))
    else (p, "")

/-- Model of os.path.basename: the part of the path after the last slash. -/
def basename (p : String) : String :=
  let cs := p.data
  match lastIndexOf '/' cs with
  | some i => String.mk (cs.drop (i + 1))
  | none => p

/-- Lowercasing of a string, character by character, modelling str.lower
on the extension strings at hand (ASCII case folding). -/
def lowerStr (s : String) : String :=
  String.mk (s.data.map Char.toLower)

/-- Accepted image extensions, from ImageProcessor.validate_image_file. -/
def valid_extensions : List String := [".png", ".jpg", ".jpeg"]

/-- Embedding of ImageProcessor.validate_image_file.  The filesystem is
abstracted by the predicate isfile (os.path.isfile at validation time). -/
def validate_image_file (isfile : String → Bool) (file_path : String) : Bool :=
  let file_ext := lowerStr (splitext file_path).2
  decide (file_ext ∈ valid_extensions) && isfile file_path

/-- A record produced by the item processor: an ordered mapping from field
names to (string-rendered) scalar values, as a Python dict preserves
insertion order. -/
abbrev Record := List (String × String)

/-- An element of the list handed to the export validator: either a mapping
(a dict) or some non-mapping value. -/
inductive Item where
  | record (fields : Record)
  | nonMapping
deriving DecidableEq

/-- Embedding of isinstance(item, dict). -/
def Item.isDict : Item → Bool
  | Item.record _ => true
  | Item.nonMapping => false

/-- Key list of an item; only meaningful for mappings (dict.keys()). -/
def Item.keys : Item → List String
  | Item.record fields => fields.map Prod.fst
  | Item.nonMapping => []

/-- Embedding of CSVExporter.validate_data.  The isinstance(data, list)
check of the source is always true in this embedding, since the argument
is a list by type. -/
def validate_data (data : List Item) : Bool :=
  if data.isEmpty then false
  else if ! data.all Item.isDict then false
  else if 1 < data.length then
    match data with
    | [] => true
    | first :: rest =>
      rest.all (fun item => decide (item.keys.toFinset = first.keys.toFinset))
  else true

/-- Characters forcing a field to be quoted: the delimiter, the quote
character, and the characters of the line terminator. -/
def specialChar (c : Char) : Bool :=
  c = ',' || c = '"' || c = '\r' || c = '\n'

/-- Quoting test of the csv module writer (QUOTE_MINIMAL): a field is
quoted iff it contains the delimiter, the quote character, or a character
of the line terminator. -/
def needsQuoting (s : String) : Bool :=
  s.data.any specialChar

/-- Quote-doubling escape used inside quoted fields. -/
def escapeQuotes : List Char → List Char
  | [] => []
  | c :: cs =>
    if c = '"' then '"' :: '"' :: escapeQuotes cs
    else c :: escapeQuotes cs

/-- Serialization of one field, quoted exactly when needed. -/
def writeField (s : String) : List Char :=
  if needsQuoting s then '"' :: (escapeQuotes s.data ++ ['"'])
  else s.data

/-- Serialization of the fields of a row, comma separated, CRLF
terminated. -/
def writeFields : List String → List Char
  | [] => ['\r', '\n']
  | [f] => writeField f ++ ['\r', '\n']
  | f :: g :: fs => writeField f ++ ',' :: writeFields (g :: fs)

/-- Serialization of one row.  A row consisting of exactly one empty field
is written as a pair of quotes, the csv module's special case
distinguishing it from an empty row. -/
def writeRow (row : List String) : List Char :=
  if row = [""] then ['"', '"', '\r', '\n'] else writeFields row

/-- Serialization of a list of rows: concatenation of the row images. -/
def writeRows (rows : List (List String)) : List Char :=
  (rows.map writeRow).flatten

/-- Error kinds of the exporter: the explicit empty-data ValueError of
export_to_csv, and the DictWriter ValueError for a row whose keys are not
all among the field names. -/
inductive ExportErr where
  | emptyData
  | extraField
deriving DecidableEq

/-- Value of a record under one key; missing keys give the DictWriter
restval, which the writer renders as the empty string. -/
def lookupKey (r : Record) (k : String) : String :=
  match r.find? (fun kv => decide (kv.1 = k)) with
  | some kv => kv.2
  | none => ""

/-- Embedding of DictWriter._dict_to_list: reject rows having keys outside
the field names, otherwise order the row's values to match the header. -/
def dictToRow (fieldnames : List String) (r : Record) : Except ExportErr (List String) :=
  if r.all (fun kv => decide (kv.1 ∈ fieldnames)) then
    Except.ok (fieldnames.map (fun k => lookupKey r k))
  else Except.error ExportErr.extraField

/-- Row conversion of a whole batch, in order (DictWriter.writerows). -/
def rowsOf (fieldnames : List String) : List Record → Except ExportErr (List (List String))
  | [] => Except.ok []
  | r :: rs =>
    match dictToRow fieldnames r, rowsOf fieldnames rs with
    | Except.ok row, Except.ok rows => Except.ok (row :: rows)
    | Except.error e, _ => Except.error e
    | Except.ok _, Except.error e => Except.error e

/-- Embedding of CSVExporter.export_to_csv.  The produced file content is
returned as a string; the empty-input check is the explicit ValueError of
the source, raised before anything is written. -/
def export_to_csv (data : List Record) : Except ExportErr String :=
  match data with
  | [] => Except.error ExportErr.emptyData
  | first :: _ =>
    let fieldnames := first.map Prod.fst
    match rowsOf fieldnames data with
    | Except.error e => Except.error e
    | Except.ok rows => Except.ok (String.mk (writeRow fieldnames ++ writeRows rows))

/-- Parsing of an unquoted field: everything up to the next delimiter or
line break, returned with the unconsumed remainder. -/
def parseUnquoted : List Char → List Char × List Char
  | [] => ([], [])
  | c :: rest =>
    if c = ',' || c = '\r' || c = '\n' then ([], c :: rest)
    else
      let p := parseUnquoted rest
      (c :: p.1, p.2)

/-- Parsing of a quoted field after the opening quote: a doubled quote is
an escaped quote character, a single quote closes the field, and running
out of input is a parse error. -/
def parseQuoted : List Char → Option (List Char × List Char)
  | [] => none
  | c :: rest =>
    if c = '"' then
      match rest with
      | [] => some ([], [])
      | c2 :: rest2 =>
        if c2 = '"' then (parseQuoted rest2).map (fun p => ('"' :: p.1, p.2))
        else some ([], c2 :: rest2)
    else (parseQuoted rest).map (fun p => (c :: p.1, p.2))

/-- Parsing of one field of standard delimited text. -/
def parseField (input : List Char) : Option (List Char × List Char) :=
  match input with
  | [] => some ([], [])
  | c :: rest =>
    if c = '"' then parseQuoted rest
    else some (parseUnquoted (c :: rest))

/-- Parsing of one record (fuelled by the number of fields): fields
separated by commas, ended by CRLF or the end of input. -/
def parseRecordF : Nat → List Char → Option (List String × List Char)
  | 0, _ => none
  | fuel + 1, input =>
    match parseField input with
    | none => none
    | some (f, rem) =>
      match rem with
      | [] => some ([String.mk f], [])
      | c :: rem2 =>
        if c = ',' then
          (parseRecordF fuel rem2).map (fun p => (String.mk f :: p.1, p.2))
        else if c = '\r' then
          match rem2 with
          | c2 :: rem3 => if c2 = '\n' then some ([String.mk f], rem3) else none
          | [] => none
        else none

/-- Parsing of a sequence of records (fuelled by the number of records).
A line consisting only of the terminator is an empty record, matching the
csv module's reader. -/
def parseRecordsF : Nat → List Char → Option (List (List String))
  | 0, _ => none
  | fuel + 1, input =>
    match input with
    | [] => some []
    | c :: rest =>
      if c = '\r' ∧ rest.head? = some '\n' then
        (parseRecordsF fuel rest.tail).map (fun rs => ([] : List String) :: rs)
      else
        match parseRecordF input.length input with
        | none => none
        | some (row, rem) => (parseRecordsF fuel rem).map (fun rs => row :: rs)

/-- Parsing of a whole delimited-text file into its rows.  The fuel bounds
are sufficient for every input, as the record count is below the length. -/
def parseRecords (input : List Char) : Option (List (List String)) :=
  parseRecordsF (input.length + 1) input

/-- Buttons the controller enables and disables on the UI. -/
inductive Btn where
  | select
  | process
  | export
deriving DecidableEq

/-- Notifications the controller sends to the UI collaborator. -/
inductive Ev where
  | warning (title msg : String)
  | errorDialog (title msg : String)
  | info (title msg : String)
  | status (msg : String)
  | progress (idx : Nat)
  | fileList (files : List String)
  | setupProgress (total : Nat)
  | enableBtn (b : Btn)
  | disableBtn (b : Btn)
deriving DecidableEq

/-- Controller-owned mutable state of ImageProcessorApp. -/
structure AppState where
  selected_files : List String
  processed_data : List Record
deriving DecidableEq

/-- Outcome of the per-file processing loop: accumulated records, recorded
failures, the arguments of the processor invocations in order, and the
emitted UI events in order. -/
structure LoopOut where
  records : List Record
  failures : List (String × String)
  calls : List String
  events : List Ev
deriving DecidableEq

/-- Embedding of the for loop of handle_process_images: enumerate from 1,
try the processor on each file, append results, report errors, and update
progress after each attempt. -/
def processLoop (proc : String → Except String Record) (total : Nat) : Nat → List String → LoopOut
  | _, [] => ⟨[], [], [], []⟩
  | idx, f :: fs =>
    let statusEv := Ev.status ("Processing " ++ toString idx ++ "/" ++ toString total ++ ": " ++ basename f)
    let rest := processLoop proc total (idx + 1) fs
    match proc f with
    | Except.ok r =>
      ⟨r :: rest.records, rest.failures, f :: rest.calls,
       statusEv :: Ev.progress idx :: rest.events⟩
    | Except.error e =>
      ⟨rest.records, (f, e) :: rest.failures, f :: rest.calls,
       statusEv ::
         Ev.errorDialog "Processing Error" ("Error processing " ++ basename f ++ ":\n" ++ e) ::
           Ev.progress idx :: rest.events⟩

/-- Embedding of ImageProcessorApp.handle_process_images.  The processor is
a parameter returning either a record or the exception message. -/
def handle_process_images (proc : String → Except String Record) (s : AppState) : AppState × List Ev :=
  if s.selected_files.isEmpty then
    (s, [Ev.warning "No Files" "Please select files first."])
  else
    let files := s.selected_files
    let total := files.length
    let out := processLoop proc total 1 files
    let doneEvs : List Ev :=
      if ! out.records.isEmpty then
        [Ev.enableBtn Btn.export,
         Ev.status ("Processing complete! " ++ toString out.records.length ++ " images processed."),
         Ev.info "Success" ("Successfully processed " ++ toString out.records.length ++ " images!")]
      else [Ev.status "Processing failed - no data extracted."]
    ({ s with processed_data := out.records },
     Ev.setupProgress total :: Ev.disableBtn Btn.process :: Ev.disableBtn Btn.select ::
       Ev.disableBtn Btn.export ::
         (out.events ++ Ev.enableBtn Btn.select :: Ev.enableBtn Btn.process :: doneEvs))

/-- Embedding of ImageProcessorApp.handle_select_files.  The file dialog's
result is the files argument; an empty result (cancelled dialog) makes the
handler return without any effect. -/
def handle_select_files (isfile : String → Bool) (files : List String) (s : AppState) : AppState × List Ev :=
  if files.isEmpty then (s, [])
  else
    let valid_files := files.filter (fun f => validate_image_file isfile f)
    let skipEvs : List Ev :=
      if valid_files.length ≠ files.length then
        [Ev.warning "Invalid Files"
          (toString (files.length - valid_files.length) ++ " file(s) were skipped (not valid image files)")]
      else []
    if ! valid_files.isEmpty then
      ({ selected_files := valid_files, processed_data := [] },
       skipEvs ++
         [Ev.fileList valid_files, Ev.enableBtn Btn.process, Ev.disableBtn Btn.export,
          Ev.status (toString valid_files.length ++ " files selected")])
    else
      (s, skipEvs ++ [Ev.warning "No Valid Files" "No valid image files were selected."])

/-- Embedding of ImageProcessorApp.handle_export_csv.  The save dialog's
result is a parameter (none models cancellation); the third component
records the exporter invocation and its result, none when the exporter was
never called. -/
def handle_export_csv (s : AppState) (save_dialog : Option String) :
    AppState × List Ev × Option (Except ExportErr String) :=
  if s.processed_data.isEmpty then
    (s, [Ev.warning "No Data" "Please process images first."], none)
  else if ! validate_data (s.processed_data.map Item.record) then
    (s, [Ev.errorDialog "Invalid Data" "Processed data is not in valid format for export."], none)
  else
    match save_dialog with
    | none => (s, [], none)
    | some file_path =>
      match export_to_csv s.processed_data with
      | Except.ok content =>
        (s,
         [Ev.status ("Data exported to " ++ basename file_path),
          Ev.info "Success" ("Data successfully exported to:\n" ++ file_path)],
         some (Except.ok content))
      | Except.error e =>
        (s, [Ev.errorDialog "Export Error" "Failed to export data"], some (Except.error e))

/-- Indices of the progress notifications of an event trace, in order. -/
def progressIndices (evs : List Ev) : List Nat :=
  evs.filterMap (fun e =>
    match e with
    | Ev.progress i => some i
    | _ => none)

/-- Test whether an event is an error-dialog notification. -/
def isErrDialog : Ev → Bool
  | Ev.errorDialog _ _ => true
  | _ => false

theorem progressIndices_append (a b : List Ev) :
    progressIndices (a ++ b) = progressIndices a ++ progressIndices b :=
  List.filterMap_append a b _

theorem processLoop_calls (proc : String → Except String Record) (total idx : Nat)
    (files : List String) : (processLoop proc total idx files).calls = files := by
  induction files generalizing idx with
  | nil => rfl
  | cons f fs ih =>
    simp only [processLoop]
    cases proc f <;> simp [ih]

theorem processLoop_records (proc : String → Except String Record) (total idx : Nat)
    (files : List String) :
    (processLoop proc total idx files).records
      = files.filterMap (fun f => (proc f).toOption) := by
  induction files generalizing idx with
  | nil => rfl
  | cons f fs ih =>
    simp only [processLoop, List.filterMap_cons]
    cases h : proc f <;> simp [h, ih, Except.toOption]

theorem processLoop_failures (proc : String → Except String Record) (total idx : Nat)
    (files : List String) :
    (processLoop proc total idx files).failures
      = files.filterMap (fun f =>
          match proc f with
          | Except.ok _ => none
          | Except.error e => some (f, e)) := by
  induction files generalizing idx with
  | nil => rfl
  | cons f fs ih =>
    simp only [processLoop, List.filterMap_cons]
    cases h : proc f <;> simp [h, ih]

theorem processLoop_counts (proc : String → Except String Record) (total idx : Nat)
    (files : List String) :
    (processLoop proc total idx files).records.length
        + (processLoop proc total idx files).failures.length = files.length := by
  induction files generalizing idx with
  | nil => rfl
  | cons f fs ih =>
    simp only [processLoop]
    cases proc f <;> simp only [List.length_cons] <;> (have h2 := ih (idx + 1); omega)

theorem processLoop_progress (proc : String → Except String Record) (total idx : Nat)
    (files : List String) :
    progressIndices (processLoop proc total idx files).events
      = List.range' idx files.length := by
  induction files generalizing idx with
  | nil => rfl
  | cons f fs ih =>
    simp only [processLoop]
    cases proc f <;>
      simp [progressIndices, List.filterMap_cons, List.range'_succ idx fs.length 1] <;>
        exact ih (idx + 1)

theorem isErrDialog_status (m : String) : isErrDialog (Ev.status m) = false := rfl

theorem isErrDialog_progress (i : Nat) : isErrDialog (Ev.progress i) = false := rfl

theorem isErrDialog_errorDialog (t m : String) : isErrDialog (Ev.errorDialog t m) = true := rfl

theorem processLoop_errcount (proc : String → Except String Record) (total idx : Nat)
    (files : List String) :
    ((processLoop proc total idx files).events.countP (fun e => isErrDialog e))
      = (processLoop proc total idx files).failures.length := by
  induction files generalizing idx with
  | nil => rfl
  | cons f fs ih =>
    simp only [processLoop]
    cases proc f <;>
      simp [List.countP_cons, isErrDialog_status, isErrDialog_progress,
        isErrDialog_errorDialog, ih]

theorem progressIndices_nil : progressIndices [] = [] := rfl

theorem progressIndices_progress (i : Nat) (l : List Ev) :
    progressIndices (Ev.progress i :: l) = i :: progressIndices l := rfl

theorem progressIndices_setup (n : Nat) (l : List Ev) :
    progressIndices (Ev.setupProgress n :: l) = progressIndices l := rfl

theorem progressIndices_enable (b : Btn) (l : List Ev) :
    progressIndices (Ev.enableBtn b :: l) = progressIndices l := rfl

theorem progressIndices_disable (b : Btn) (l : List Ev) :
    progressIndices (Ev.disableBtn b :: l) = progressIndices l := rfl

theorem progressIndices_status (m : String) (l : List Ev) :
    progressIndices (Ev.status m :: l) = progressIndices l := rfl

theorem progressIndices_info (t m : String) (l : List Ev) :
    progressIndices (Ev.info t m :: l) = progressIndices l := rfl

/-- C1: one processing run on a non-empty selection invokes the processor
exactly once per selected path in input order with none duplicated or
skipped, the successful records and the failures together account for the
whole input, and the progress callback fires exactly once per item with
the strictly increasing indices 1..N. -/
theorem batch_run_exact_progress (proc : String → Except String Record) (s : AppState)
    (h : s.selected_files ≠ []) :
    (processLoop proc s.selected_files.length 1 s.selected_files).calls = s.selected_files ∧
    (handle_process_images proc s).1.processed_data.length
        + (processLoop proc s.selected_files.length 1 s.selected_files).failures.length
      = s.selected_files.length ∧
    progressIndices (handle_process_images proc s).2 = List.range' 1 s.selected_files.length ∧
    List.Chain' (· < ·) (progressIndices (handle_process_images proc s).2) := by
  have hne : s.selected_files.isEmpty = false := by simp [List.isEmpty_iff, h]
  have hstate : (handle_process_images proc s).1.processed_data
      = (processLoop proc s.selected_files.length 1 s.selected_files).records := by
    simp [handle_process_images, hne]
  have hprog : progressIndices (handle_process_images proc s).2
      = List.range' 1 s.selected_files.length := by
    simp only [handle_process_images, hne, Bool.false_eq_true, if_false]
    cases h2 : (processLoop proc s.selected_files.length 1 s.selected_files).records.isEmpty <;>
      simp only [h2, Bool.not_false, Bool.not_true, if_true, if_false,
        progressIndices_setup, progressIndices_disable, progressIndices_enable,
        progressIndices_status, progressIndices_info, progressIndices_nil,
        progressIndices_append, processLoop_progress, List.append_nil]
    all_goals
      simp [progressIndices_status, progressIndices_info, progressIndices_enable,
        progressIndices_nil]
  refine ⟨processLoop_calls proc _ 1 s.selected_files, ?_, hprog, ?_⟩
  · rw [hstate]
    exact processLoop_counts proc _ 1 s.selected_files
  · rw [hprog]
    exact (List.pairwise_lt_range' 1 s.selected_files.length 1 (by omega)).chain'

/-- C2: for every input sequence and every processor, a failing item is
recorded and reported without aborting the batch: each item is attempted
in order, the accumulated batch is exactly the records of the successful
items in input order with failed items omitted, and every failure is
reported through an error dialog. -/
theorem batch_failure_isolation (proc : String → Except String Record) (total idx : Nat)
    (files : List String) :
    (processLoop proc total idx files).records
        = files.filterMap (fun f => (proc f).toOption) ∧
    (processLoop proc total idx files).failures
        = files.filterMap (fun f =>
            match proc f with
            | Except.ok _ => none
            | Except.error e => some (f, e)) ∧
    (processLoop proc total idx files).calls = files ∧
    ((processLoop proc total idx files).events.countP (fun e => isErrDialog e))
        = (processLoop proc total idx files).failures.length :=
  ⟨processLoop_records proc total idx files, processLoop_failures proc total idx files,
   processLoop_calls proc total idx files, processLoop_errcount proc total idx files⟩

/-- C9: processing with an empty selection and exporting with an empty
batch are warnings-only no-ops: the state is returned unchanged, a
user-facing warning is the only notification, and the exporter is never
invoked. -/
theorem empty_state_noops :
    (∀ (proc : String → Except String Record) (s : AppState), s.selected_files = [] →
      handle_process_images proc s
        = (s, [Ev.warning "No Files" "Please select files first."])) ∧
    (∀ (s : AppState) (d : Option String), s.processed_data = [] →
      handle_export_csv s d
        = (s, [Ev.warning "No Data" "Please process images first."], none)) := by
  constructor
  · intro proc s hs
    have he : s.selected_files.isEmpty = true := by simp [List.isEmpty_iff, hs]
    simp [handle_process_images, he]
  · intro s d hd
    have he : s.processed_data.isEmpty = true := by simp [List.isEmpty_iff, hd]
    simp [handle_export_csv, he]

theorem empty_state_noops_witness :
    handle_process_images (fun _ => Except.error "e") ⟨[], [[("a", "1")]]⟩
        = (⟨[], [[("a", "1")]]⟩, [Ev.warning "No Files" "Please select files first."]) ∧
    handle_export_csv ⟨["a.png"], []⟩ none
        = (⟨["a.png"], []⟩, [Ev.warning "No Data" "Please process images first."], none) :=
  ⟨empty_state_noops.1 (fun _ => Except.error "e") ⟨[], [[("a", "1")]]⟩ rfl,
   empty_state_noops.2 ⟨["a.png"], []⟩ none rfl⟩

/-- C8 counterexample: when the file dialog yields no candidate paths the
handler returns without reporting anything, so an empty valid set does not
always produce a warning, contrary to the claim. -/
theorem select_cancelled_keeps_state_silently :
    handle_select_files (fun _ => false) [] ⟨["old.png"], [[("a", "1")]]⟩
      = (⟨["old.png"], [[("a", "1")]]⟩, []) := rfl

/-- C8 amended: on a non-empty candidate list, the handler filters through
the validator; a non-empty valid set replaces the whole selection and
clears the processed batch, while an empty valid set leaves the state
unchanged and reports a warning.  With an empty candidate list (cancelled
dialog) the state is also unchanged but nothing is reported. -/
theorem select_filters_replaces_or_warns (isfile : String → Bool) (files : List String)
    (s : AppState) (hne : files ≠ []) :
    (files.filter (fun f => validate_image_file isfile f) ≠ [] →
      (handle_select_files isfile files s).1.selected_files
          = files.filter (fun f => validate_image_file isfile f) ∧
      (handle_select_files isfile files s).1.processed_data = []) ∧
    (files.filter (fun f => validate_image_file isfile f) = [] →
      (handle_select_files isfile files s).1 = s ∧
      Ev.warning "No Valid Files" "No valid image files were selected."
        ∈ (handle_select_files isfile files s).2) := by
  have h1 : files.isEmpty = false := by simp [List.isEmpty_iff, hne]
  constructor
  · intro hv
    have h2 : (files.filter (fun f => validate_image_file isfile f)).isEmpty = false := by
      simp [List.isEmpty_iff, hv]
    simp [handle_select_files, h1, h2]
  · intro hv
    have h2 : (files.filter (fun f => validate_image_file isfile f)).isEmpty = true := by
      simp [List.isEmpty_iff, hv]
    simp [handle_select_files, h1, h2]

theorem select_filters_witness :
    (handle_select_files (fun _ => true) ["a.png", "b.txt"]
        ⟨["old.png"], [[("k", "v")]]⟩).1.selected_files
      = ["a.png", "b.txt"].filter (fun f => validate_image_file (fun _ => true) f) ∧
    (handle_select_files (fun _ => true) ["a.png", "b.txt"]
        ⟨["old.png"], [[("k", "v")]]⟩).1.processed_data = [] :=
  (select_filters_replaces_or_warns (fun _ => true) ["a.png", "b.txt"]
      ⟨["old.png"], [[("k", "v")]]⟩ (by simp)).1
    (by
      have hf : List.filter (fun f => validate_image_file (fun _ => true) f)
          ["a.png", "b.txt"] = ["a.png"] := rfl
      simp [hf])

theorem rowsOf_cases (fn : List String) (rs : List Record) :
    (∃ rows, rowsOf fn rs = Except.ok rows)
      ∨ rowsOf fn rs = Except.error ExportErr.extraField := by
  induction rs with
  | nil => exact Or.inl ⟨[], rfl⟩
  | cons r rs ih =>
    have hd : (∃ row, dictToRow fn r = Except.ok row)
        ∨ dictToRow fn r = Except.error ExportErr.extraField := by
      unfold dictToRow
      split
      · exact Or.inl ⟨_, rfl⟩
      · exact Or.inr rfl
    rcases hd with ⟨row, hrow⟩ | hrow
    · rcases ih with ⟨rows, hrows⟩ | hrows
      · exact Or.inl ⟨row :: rows, by simp [rowsOf, hrow, hrows]⟩
      · exact Or.inr (by simp [rowsOf, hrow, hrows])
    · exact Or.inr (by simp [rowsOf, hrow])

theorem export_ne_emptyData (data : List Record) (hd : data ≠ []) :
    export_to_csv data ≠ Except.error ExportErr.emptyData := by
  match data with
  | first :: rest =>
    unfold export_to_csv
    rcases rowsOf_cases (first.map Prod.fst) (first :: rest) with ⟨rows, h⟩ | h <;> simp [h]

/-- C10: whenever the export handler actually invokes the exporter, the
batch it passes is the non-empty, validated processed data, so the
exporter's empty-input error branch can never be the outcome of a
controller-initiated export. -/
theorem export_flow_guards_exporter (s : AppState) (d : Option String)
    (r : Except ExportErr String) (h : (handle_export_csv s d).2.2 = some r) :
    s.processed_data ≠ [] ∧ r = export_to_csv s.processed_data
      ∧ r ≠ Except.error ExportErr.emptyData := by
  by_cases h1 : s.processed_data.isEmpty = true
  · simp [handle_export_csv, h1] at h
  · have hne : s.processed_data ≠ [] := by
      intro hcontra
      exact h1 (by simp [List.isEmpty_iff, hcontra])
    have h1f : s.processed_data.isEmpty = false := by
      simpa [Bool.not_eq_true] using h1
    by_cases h2 : validate_data (s.processed_data.map Item.record) = true
    · cases d with
      | none => simp [handle_export_csv, h1f, h2] at h
      | some path =>
        have hr : r = export_to_csv s.processed_data := by
          cases h3 : export_to_csv s.processed_data with
          | ok c =>
            simp [handle_export_csv, h1f, h2, h3] at h
            exact h.symm
          | error e =>
            simp [handle_export_csv, h1f, h2, h3] at h
            exact h.symm
        refine ⟨hne, hr, ?_⟩
        rw [hr]
        exact export_ne_emptyData s.processed_data hne
    · have h2f : validate_data (s.processed_data.map Item.record) = false := by
        simpa [Bool.not_eq_true] using h2
      simp [handle_export_csv, h1f, h2f] at h

/-- C5: the exporter itself rejects an empty batch with its empty-input
error, producing no file content; this check is the exporter's own, not
the validator's. -/
theorem export_empty_input_error : export_to_csv [] = Except.error ExportErr.emptyData := rfl

/-- C4: the file validator accepts a path exactly when its extension,
lowercased, is .png, .jpg or .jpeg and the path refers to an existing
regular file at validation time. -/
theorem validate_image_iff (isfile : String → Bool) (p : String) :
    validate_image_file isfile p = true ↔
      ((lowerStr (splitext p).2 = ".png" ∨ lowerStr (splitext p).2 = ".jpg"
          ∨ lowerStr (splitext p).2 = ".jpeg") ∧ isfile p = true) := by
  simp [validate_image_file, valid_extensions]

theorem mk_data (s : String) : String.mk s.data = s := rfl

theorem not_special_of_needsQuoting_false {s : String} (h : needsQuoting s = false) :
    ∀ c ∈ s.data, specialChar c = false := by
  intro c hc
  simpa using List.any_eq_false.mp h c hc

theorem parseUnquoted_writer (s : List Char) (rest : List Char)
    (hs : ∀ c ∈ s, specialChar c = false)
    (hr : rest = [] ∨ rest.head? = some ',' ∨ rest.head? = some '\r') :
    parseUnquoted (s ++ rest) = (s, rest) := by
  induction s with
  | nil =>
    rcases hr with rfl | hr | hr
    · rfl
    · cases rest with
      | nil => simp at hr
      | cons c t =>
        simp only [List.head?_cons, Option.some_inj] at hr
        subst hr
        simp [parseUnquoted]
    · cases rest with
      | nil => simp at hr
      | cons c t =>
        simp only [List.head?_cons, Option.some_inj] at hr
        subst hr
        simp [parseUnquoted]
  | cons c cs ih =>
    have hc : specialChar c = false := hs c (List.mem_cons_self c cs)
    have hcs : ∀ x ∈ cs, specialChar x = false := fun x hx => hs x (List.mem_cons_of_mem c hx)
    simp only [specialChar, Bool.or_eq_false_iff, decide_eq_false_iff_not] at hc
    simp [parseUnquoted, hc.1.1.1, hc.1.2, hc.2, ih hcs]

theorem parseQuoted_writer (s : List Char) (rest : List Char)
    (hr : rest.head? ≠ some '"') :
    parseQuoted (escapeQuotes s ++ '"' :: rest) = some (s, rest) := by
  induction s with
  | nil =>
    cases rest with
    | nil => rfl
    | cons c t =>
      have hc : c ≠ '"' := by simpa using hr
      simp [escapeQuotes, parseQuoted, hc]
  | cons c cs ih =>
    by_cases hc : c = '"'
    · subst hc
      simp [escapeQuotes, parseQuoted, ih]
    · have hshape : escapeQuotes (c :: cs) ++ '"' :: rest
          = c :: (escapeQuotes cs ++ '"' :: rest) := by
        simp [escapeQuotes, hc]
      rw [hshape]
      rw [parseQuoted.eq_def]
      simp only []
      rw [if_neg hc, ih]
      rfl

theorem parseField_writer (s : String) (rest : List Char)
    (hr : rest = [] ∨ rest.head? = some ',' ∨ rest.head? = some '\r') :
    parseField (writeField s ++ rest) = some (s.data, rest) := by
  by_cases hq : needsQuoting s = true
  · have hr2 : rest.head? ≠ some '"' := by
      rcases hr with rfl | h | h
      · simp
      · simp [h]
      · simp [h]
    simp only [writeField, hq, if_pos]
    have hshape : ('"' :: (escapeQuotes s.data ++ ['"'])) ++ rest
        = '"' :: (escapeQuotes s.data ++ '"' :: rest) := by
      simp
    rw [hshape]
    simp [parseField, parseQuoted_writer s.data rest hr2]
  · have hq2 : needsQuoting s = false := by simpa using hq
    have hs : ∀ c ∈ s.data, specialChar c = false := not_special_of_needsQuoting_false hq2
    simp only [writeField, hq2, Bool.false_eq_true, if_false]
    cases hsd : s.data with
    | nil =>
      rcases hr with rfl | hr | hr
      · rfl
      · cases rest with
        | nil => simp at hr
        | cons c t =>
          simp only [List.head?_cons, Option.some_inj] at hr
          subst hr
          simp [parseField, parseUnquoted]
      · cases rest with
        | nil => simp at hr
        | cons c t =>
          simp only [List.head?_cons, Option.some_inj] at hr
          subst hr
          simp [parseField, parseUnquoted]
    | cons c cs =>
      have hc : specialChar c = false := by
        apply hs
        rw [hsd]
        exact List.mem_cons_self c cs
      have hcq : c ≠ '"' := by
        simp only [specialChar, Bool.or_eq_false_iff, decide_eq_false_iff_not] at hc
        exact hc.1.1.2
      have hrest : parseUnquoted ((c :: cs) ++ rest) = (c :: cs, rest) := by
        apply parseUnquoted_writer
        · intro x hx
          apply hs
          rw [hsd]
          exact hx
        · exact hr
      rw [List.cons_append] at hrest
      simp [parseField, hcq, hrest]

theorem parseRecordF_writeFields (row : List String) (rest : List Char) (fuel : Nat)
    (hrow : row ≠ []) (hfuel : row.length ≤ fuel) :
    parseRecordF fuel (writeFields row ++ rest) = some (row, rest) := by
  induction row generalizing fuel with
  | nil => exact absurd rfl hrow
  | cons f fs ih =>
    obtain ⟨fl, rfl⟩ : ∃ fl, fuel = fl + 1 :=
      ⟨fuel - 1, by simp only [List.length_cons] at hfuel; omega⟩
    cases fs with
    | nil =>
      have hshape : writeFields [f] ++ rest = writeField f ++ ('\r' :: '\n' :: rest) := by
        simp [writeFields]
      rw [hshape]
      simp [parseRecordF, parseField_writer f ('\r' :: '\n' :: rest) (Or.inr (Or.inr rfl)),
        mk_data]
    | cons g gs =>
      have hshape : writeFields (f :: g :: gs) ++ rest
          = writeField f ++ (',' :: (writeFields (g :: gs) ++ rest)) := by
        simp [writeFields]
      rw [hshape]
      have hih : parseRecordF fl (writeFields (g :: gs) ++ rest) = some (g :: gs, rest) := by
        apply ih
        · exact List.cons_ne_nil g gs
        · simp only [List.length_cons] at hfuel ⊢
          omega
      simp [parseRecordF, parseField_writer f (',' :: (writeFields (g :: gs) ++ rest))
        (Or.inr (Or.inl rfl)), mk_data, hih]

theorem mk_nil_eq : String.mk [] = "" := rfl

theorem parseRecordF_writeRow (row : List String) (rest : List Char) (fuel : Nat)
    (hrow : row ≠ []) (hfuel : row.length ≤ fuel) :
    parseRecordF fuel (writeRow row ++ rest) = some (row, rest) := by
  by_cases hone : row = [""]
  · subst hone
    obtain ⟨g, rfl⟩ : ∃ g, fuel = g + 1 := ⟨fuel - 1, by simp at hfuel; omega⟩
    show parseRecordF (g + 1) ('"' :: '"' :: '\r' :: '\n' :: rest) = some ([""], rest)
    simp [parseRecordF, parseField, parseQuoted, mk_nil_eq]
  · rw [writeRow, if_neg hone]
    exact parseRecordF_writeFields row rest fuel hrow hfuel

theorem writeRow_head_ne_cr (row : List String) (hrow : row ≠ []) :
    ∃ c cs, writeRow row = c :: cs ∧ c ≠ '\r' := by
  by_cases hone : row = [""]
  · subst hone
    exact ⟨'"', ['"', '\r', '\n'], rfl, by decide⟩
  · rw [writeRow, if_neg hone]
    cases row with
    | nil => exact absurd rfl hrow
    | cons f fs =>
      by_cases hq : needsQuoting f = true
      · cases fs with
        | nil =>
          refine ⟨'"', escapeQuotes f.data ++ ['"'] ++ ['\r', '\n'], ?_, by decide⟩
          simp [writeFields, writeField, hq]
        | cons g gs =>
          refine ⟨'"', escapeQuotes f.data ++ ['"'] ++ ',' :: writeFields (g :: gs), ?_,
            by decide⟩
          simp [writeFields, writeField, hq]
      · have hq2 : needsQuoting f = false := by simpa using hq
        cases hfd : f.data with
        | nil =>
          have hf : f = "" := by
            have h2 := congrArg String.mk hfd
            rw [mk_data] at h2
            exact h2
          cases fs with
          | nil => exact absurd (by rw [hf]) hone
          | cons g gs =>
            refine ⟨',', writeFields (g :: gs), ?_, by decide⟩
            simp [writeFields, writeField, hq2, hfd]
        | cons c cs2 =>
          have hc : specialChar c = false := by
            apply not_special_of_needsQuoting_false hq2
            rw [hfd]
            exact List.mem_cons_self c cs2
          have hcr : c ≠ '\r' := by
            intro hcontra
            rw [hcontra] at hc
            simp [specialChar] at hc
          cases fs with
          | nil =>
            refine ⟨c, cs2 ++ ['\r', '\n'], ?_, hcr⟩
            simp [writeFields, writeField, hq2, hfd]
          | cons g gs =>
            refine ⟨c, cs2 ++ ',' :: writeFields (g :: gs), ?_, hcr⟩
            simp [writeFields, writeField, hq2, hfd]

theorem writeFields_length (row : List String) :
    row.length + 1 ≤ (writeFields row).length := by
  induction row with
  | nil => simp [writeFields]
  | cons f fs ih =>
    cases fs with
    | nil => simp [writeFields]
    | cons g gs =>
      simp only [writeFields, List.length_append, List.length_cons] at ih ⊢
      omega

theorem writeRow_length (row : List String) : row.length + 1 ≤ (writeRow row).length := by
  by_cases hone : row = [""]
  · subst hone
    decide
  · rw [writeRow, if_neg hone]
    exact writeFields_length row

theorem rows_length_le_writeRows (rows : List (List String)) :
    rows.length ≤ (writeRows rows).length := by
  induction rows with
  | nil => simp [writeRows]
  | cons row rows ih =>
    have h1 := writeRow_length row
    simp only [writeRows, List.map_cons, List.flatten_cons, List.length_append,
      List.length_cons] at ih ⊢
    omega

theorem parseRecordsF_crlf (fuel : Nat) (t : List Char) :
    parseRecordsF (fuel + 1) ('\r' :: '\n' :: t)
      = (parseRecordsF fuel t).map (fun rs => ([] : List String) :: rs) := by
  simp [parseRecordsF]

theorem parseRecordsF_writeRows (rows : List (List String)) (fuel : Nat)
    (hfuel : rows.length < fuel) :
    parseRecordsF fuel (writeRows rows) = some rows := by
  induction rows generalizing fuel with
  | nil =>
    obtain ⟨g, rfl⟩ : ∃ g, fuel = g + 1 := ⟨fuel - 1, by omega⟩
    rfl
  | cons row rows ih =>
    obtain ⟨g, rfl⟩ : ∃ g, fuel = g + 1 := ⟨fuel - 1, by omega⟩
    have hg : rows.length < g := by
      simp only [List.length_cons] at hfuel
      omega
    by_cases hrow : row = []
    · subst hrow
      have hwr : writeRows ([] :: rows) = '\r' :: '\n' :: writeRows rows := by
        simp [writeRows, writeRow, writeFields]
      rw [hwr, parseRecordsF_crlf g (writeRows rows), ih g hg]
      rfl
    · obtain ⟨c, cs, hwrow, hc⟩ := writeRow_head_ne_cr row hrow
      have hshape : writeRows (row :: rows) = c :: (cs ++ writeRows rows) := by
        simp [writeRows, hwrow]
      rw [hshape]
      simp only [parseRecordsF]
      rw [if_neg (by simp [hc])]
      have hback : c :: (cs ++ writeRows rows) = writeRow row ++ writeRows rows := by
        rw [hwrow]
        simp
      rw [hback]
      have hlen : row.length ≤ (writeRow row ++ writeRows rows).length := by
        have h1 := writeRow_length row
        simp only [List.length_append]
        omega
      rw [parseRecordF_writeRow row (writeRows rows) _ hrow hlen]
      simp [ih g hg]

theorem parseRecords_writeRows (rows : List (List String)) :
    parseRecords (writeRows rows) = some rows :=
  parseRecordsF_writeRows rows ((writeRows rows).length + 1)
    (Nat.lt_succ_of_le (rows_length_le_writeRows rows))

theorem keys_mem_of_toFinset_eq {r : Record} {fn : List String}
    (h : (r.map Prod.fst).toFinset = fn.toFinset) : ∀ kv ∈ r, kv.1 ∈ fn := by
  intro kv hkv
  have h1 : kv.1 ∈ (r.map Prod.fst).toFinset := by
    simp only [List.mem_toFinset]
    exact List.mem_map_of_mem Prod.fst hkv
  rw [h] at h1
  simpa using h1

theorem dictToRow_ok (fn : List String) (r : Record) (h : ∀ kv ∈ r, kv.1 ∈ fn) :
    dictToRow fn r = Except.ok (fn.map (fun k => lookupKey r k)) := by
  unfold dictToRow
  rw [if_pos]
  apply List.all_eq_true.mpr
  intro kv hkv
  exact decide_eq_true (h kv hkv)

theorem rowsOf_ok (fn : List String) (rs : List Record)
    (h : ∀ r ∈ rs, ∀ kv ∈ r, kv.1 ∈ fn) :
    rowsOf fn rs = Except.ok (rs.map (fun r => fn.map (fun k => lookupKey r k))) := by
  induction rs with
  | nil => rfl
  | cons r rs ih =>
    have h1 := dictToRow_ok fn r (h r (List.mem_cons_self r rs))
    have h2 := ih (fun x hx kv hkv => h x (List.mem_cons_of_mem r hx) kv hkv)
    simp [rowsOf, h1, h2]

theorem export_to_csv_ok (data : List Record) (first : Record) (rest : List Record)
    (hdata : data = first :: rest)
    (huni : ∀ r ∈ data, (r.map Prod.fst).toFinset = (first.map Prod.fst).toFinset) :
    export_to_csv data
      = Except.ok (String.mk (writeRows ((first.map Prod.fst)
          :: data.map (fun r => (first.map Prod.fst).map (fun k => lookupKey r k))))) := by
  subst hdata
  have hkeys : ∀ r ∈ first :: rest, ∀ kv ∈ r, kv.1 ∈ first.map Prod.fst := by
    intro r hr kv hkv
    exact keys_mem_of_toFinset_eq (huni r hr) kv hkv
  simp only [export_to_csv, rowsOf_ok (first.map Prod.fst) (first :: rest) hkeys]
  simp [writeRows]

theorem lookupKey_eq {r : Record} (hnd : (r.map Prod.fst).Nodup) {k v : String}
    (hkv : (k, v) ∈ r) : lookupKey r k = v := by
  induction r with
  | nil => simp at hkv
  | cons kv0 rs ih =>
    obtain ⟨k0, v0⟩ := kv0
    simp only [List.map_cons, List.nodup_cons] at hnd
    rcases List.mem_cons.mp hkv with heq | hmem
    · injection heq with h1 h2
      subst h1
      subst h2
      unfold lookupKey
      rw [List.find?_cons_of_pos _ (by simp)]
    · have hk0 : ¬k0 = k := by
        intro hcontra
        subst hcontra
        exact hnd.1 (by simpa using List.mem_map_of_mem Prod.fst hmem)
      unfold lookupKey
      rw [List.find?_cons_of_neg _ (by simp [hk0])]
      exact ih hnd.2 hmem

/-- C6: exporting a non-empty uniform batch succeeds and the produced file,
parsed as delimited text, is exactly one header row carrying the first
record's field names in that record's key order, followed by one row per
record in input order whose values are ordered to match the header. -/
theorem export_writes_header_then_rows (data : List Record) (first : Record)
    (rest : List Record) (hdata : data = first :: rest)
    (huni : ∀ r ∈ data, (r.map Prod.fst).toFinset = (first.map Prod.fst).toFinset) :
    ∃ content, export_to_csv data = Except.ok content ∧
      parseRecords content.data
        = some ((first.map Prod.fst)
            :: data.map (fun r => (first.map Prod.fst).map (fun k => lookupKey r k))) := by
  refine ⟨_, export_to_csv_ok data first rest hdata huni, ?_⟩
  exact parseRecords_writeRows _

theorem export_header_rows_witness :
    ∃ content,
      export_to_csv [[("a", "1"), ("b", "2")], [("b", "3"), ("a", "4")]]
          = Except.ok content ∧
      parseRecords content.data
        = some (([("a", "1"), ("b", "2")].map Prod.fst)
            :: [[("a", "1"), ("b", "2")], [("b", "3"), ("a", "4")]].map
                (fun r => ([("a", "1"), ("b", "2")].map Prod.fst).map
                  (fun k => lookupKey r k))) :=
  export_writes_header_then_rows
    [[("a", "1"), ("b", "2")], [("b", "3"), ("a", "4")]]
    [("a", "1"), ("b", "2")] [[("b", "3"), ("a", "4")]] rfl (by decide)

/-- C7: exporting N non-empty uniform records (unique keys per record, as
for any mapping) and re-parsing the file as standard delimited text yields
one header row plus exactly N data rows, whose values are the original
field values as strings, commas, quotes and line breaks included. -/
theorem export_round_trip (data : List Record) (first : Record) (rest : List Record)
    (hdata : data = first :: rest)
    (huni : ∀ r ∈ data, (r.map Prod.fst).toFinset = (first.map Prod.fst).toFinset)
    (hnodup : ∀ r ∈ data, (r.map Prod.fst).Nodup) :
    ∃ content rows, export_to_csv data = Except.ok content ∧
      parseRecords content.data = some ((first.map Prod.fst) :: rows) ∧
      rows.length = data.length ∧
      rows = data.map (fun r => (first.map Prod.fst).map (fun k => lookupKey r k)) ∧
      ∀ r ∈ data, ∀ kv ∈ r, lookupKey r kv.1 = kv.2 := by
  refine ⟨_, data.map (fun r => (first.map Prod.fst).map (fun k => lookupKey r k)),
    export_to_csv_ok data first rest hdata huni, parseRecords_writeRows _, by simp, rfl, ?_⟩
  intro r hr kv hkv
  exact lookupKey_eq (hnodup r hr) hkv

theorem export_round_trip_witness :
    ∃ content rows,
      export_to_csv [[("name", "x,y"), ("note", "say \"hi\"")],
          [("name", "l1\nl2"), ("note", "")]] = Except.ok content ∧
      parseRecords content.data
          = some (([("name", "x,y"), ("note", "say \"hi\"")].map Prod.fst) :: rows) ∧
      rows.length
          = [[("name", "x,y"), ("note", "say \"hi\"")],
              [("name", "l1\nl2"), ("note", "")]].length ∧
      rows = [[("name", "x,y"), ("note", "say \"hi\"")],
              [("name", "l1\nl2"), ("note", "")]].map
                (fun r => ([("name", "x,y"), ("note", "say \"hi\"")].map Prod.fst).map
                  (fun k => lookupKey r k)) ∧
      ∀ r ∈ [[("name", "x,y"), ("note", "say \"hi\"")],
              [("name", "l1\nl2"), ("note", "")]], ∀ kv ∈ r, lookupKey r kv.1 = kv.2 :=
  export_round_trip
    [[("name", "x,y"), ("note", "say \"hi\"")], [("name", "l1\nl2"), ("note", "")]]
    [("name", "x,y"), ("note", "say \"hi\"")]
    [[("name", "l1\nl2"), ("note", "")]] rfl (by decide) (by decide)

/-- C3: validate_data accepts exactly the non-empty lists of mappings that
all share one key set (order-independent set equality): it rejects empty
input, any non-mapping element, and heterogeneous schemas. -/
theorem validate_data_iff (data : List Item) :
    validate_data data = true ↔
      (data ≠ [] ∧ (∀ it ∈ data, it.isDict = true)
        ∧ ∀ a ∈ data, ∀ b ∈ data, a.keys.toFinset = b.keys.toFinset) := by
  cases data with
  | nil => simp [validate_data]
  | cons first rest =>
    by_cases hall : (first :: rest).all Item.isDict = true
    · cases rest with
      | nil =>
        have hval : validate_data [first] = true := by
          simp only [validate_data]
          rw [if_neg (by simp), if_neg (by simp [hall]), if_neg (by simp)]
        rw [hval]
        constructor
        · intro _
          refine ⟨by simp, ?_, ?_⟩
          · intro it hit
            exact List.all_eq_true.mp hall it hit
          · intro a ha b hb
            simp only [List.mem_singleton] at ha hb
            rw [ha, hb]
        · intro _
          rfl
      | cons second rest2 =>
        have hval : validate_data (first :: second :: rest2)
            = (second :: rest2).all
                (fun item => decide (item.keys.toFinset = first.keys.toFinset)) := by
          simp only [validate_data]
          rw [if_neg (by simp), if_neg (by simp [hall]),
            if_pos (by simp [List.length_cons])]
        rw [hval]
        constructor
        · intro hb
          have hkey : ∀ x ∈ first :: second :: rest2,
              x.keys.toFinset = first.keys.toFinset := by
            intro x hx
            rcases List.mem_cons.mp hx with rfl | hx2
            · rfl
            · exact of_decide_eq_true (List.all_eq_true.mp hb x hx2)
          refine ⟨by simp, ?_, ?_⟩
          · intro it hit
            exact List.all_eq_true.mp hall it hit
          · intro a ha b hb2
            rw [hkey a ha, hkey b hb2]
        · rintro ⟨-, -, hpair⟩
          apply List.all_eq_true.mpr
          intro it hit
          exact decide_eq_true
            (hpair it (List.mem_cons_of_mem first hit) first (List.mem_cons_self first _))
    · have hval : validate_data (first :: rest) = false := by
        simp only [validate_data]
        rw [if_neg (by simp), if_pos (by simp [Bool.eq_false_iff.mpr hall])]
      rw [hval]
      constructor
      · intro h
        exact absurd h (by simp)
      · rintro ⟨-, hdict, -⟩
        exact absurd (List.all_eq_true.mpr fun it hit => hdict it hit) hall

theorem batch_run_witness :
    (processLoop (fun f => if f = "b.png" then Except.error "boom"
        else Except.ok [("x", "1")]) 2 1 ["a.png", "b.png"]).calls = ["a.png", "b.png"] ∧
    (handle_process_images (fun f => if f = "b.png" then Except.error "boom"
          else Except.ok [("x", "1")])
        ⟨["a.png", "b.png"], []⟩).1.processed_data.length
        + (processLoop (fun f => if f = "b.png" then Except.error "boom"
            else Except.ok [("x", "1")]) 2 1 ["a.png", "b.png"]).failures.length = 2 ∧
    progressIndices (handle_process_images (fun f => if f = "b.png" then Except.error "boom"
          else Except.ok [("x", "1")]) ⟨["a.png", "b.png"], []⟩).2 = List.range' 1 2 ∧
    List.Chain' (· < ·) (progressIndices (handle_process_images
        (fun f => if f = "b.png" then Except.error "boom"
          else Except.ok [("x", "1")]) ⟨["a.png", "b.png"], []⟩).2) :=
  batch_run_exact_progress
    (fun f => if f = "b.png" then Except.error "boom" else Except.ok [("x", "1")])
    ⟨["a.png", "b.png"], []⟩ (by simp)

theorem export_flow_witness :
    ([[("a", "1")]] : List Record) ≠ [] ∧
    (Except.ok "a\r\n1\r\n" : Except ExportErr String) = export_to_csv [[("a", "1")]] ∧
    (Except.ok "a\r\n1\r\n" : Except ExportErr String) ≠ Except.error ExportErr.emptyData :=
  export_flow_guards_exporter ⟨[], [[("a", "1")]]⟩ (some "out.csv")
    (Except.ok "a\r\n1\r\n") rfl

end JCPZ
